import Mathlib

/-!
Verification of the HP-GL input parser (`hpgl_input/hpgl_input.py`).

The Python source builds its grammar from pyparsing combinators and drives a
scanning loop over the document.  We embed the relevant pyparsing semantics
(pyparsing 3.0.x) shallowly: a parser element is a record holding its
`skipWhitespace` / `callPreparse` flags together with its `parseImpl`-level
run function on the list of remaining characters.  `PEl.parse` mirrors
`ParserElement._parse`: when invoked with `callPreParse = true` and both flags
set, leading default whitespace is skipped before `parseImpl` runs.

Tokens mirror `ParseResults` at the level this grammar uses them: a flat list
whose elements are either plain strings or one `Group` of plain strings.
-/

namespace HPGL

/-- pyparsing `ParserElement.DEFAULT_WHITE_CHARS = " \n\t"`. -/
def isDefaultWhite (c : Char) : Bool :=
  c = ' ' || c = '\n' || c = '\t'

/-- Characters matched by `pp.White()` (default `" \t\r\n"`). -/
def isWhiteMatch (c : Char) : Bool :=
  c = ' ' || c = '\t' || c = '\r' || c = '\n'

/-- Characters removed by Python `str.strip()` on ASCII text. -/
def isPyStripWhite (c : Char) : Bool :=
  c = ' ' || c = '\t' || c = '\n' || c = '\r' || c = '\x0b' || c = '\x0c'

/-- Whitespace skipping done by `ParserElement.preParse`. -/
def dropWs (s : List Char) : List Char :=
  s.dropWhile isDefaultWhite

/-- Python `str.strip()` (both ends). -/
def pyStrip (s : List Char) : List Char :=
  ((s.dropWhile isPyStripWhite).reverse.dropWhile isPyStripWhite).reverse

/-- Python `str.expandtabs()` (tab size 8, column reset on CR/LF), applied by
`scan_string` to its input. -/
def pyExpandTabs : List Char → Nat → List Char
  | [], _ => []
  | c :: rest, col =>
    if c = '\t' then
      List.replicate (8 - col % 8) ' ' ++ pyExpandTabs rest 0
    else if c = '\n' || c = '\r' then
      c :: pyExpandTabs rest 0
    else
      c :: pyExpandTabs rest ((col + 1) % 8)

/-- A parsed token: a plain string, or one `pp.Group` of plain strings. -/
inductive Tok where
  | s (v : String)
  | g (l : List String)
deriving DecidableEq, Repr

/-- A pyparsing `ParserElement`: whitespace flags plus the
`parseImpl`+`postParse` run function, returning the remaining input and the
produced tokens, or `none` for a `ParseException`. -/
structure PEl where
  skipWs : Bool
  callPre : Bool
  impl : List Char → Option (List Char × List Tok)

/-- `ParserElement._parse`: optional `preParse` whitespace skip, then
`parseImpl`. -/
def PEl.parse (p : PEl) (callPreParse : Bool) (s : List Char) :
    Option (List Char × List Tok) :=
  p.impl (if callPreParse && p.callPre && p.skipWs then dropWs s else s)

/-- `pp.Literal`: exact string match (no internal whitespace handling). -/
def pLit (str : String) : PEl where
  skipWs := true
  callPre := true
  impl s := if str.data.isPrefixOf s then some (s.drop str.length, [Tok.s str]) else none

/-- `pp.Word(chars)` with `min=1`, no max: greedy run of matching characters. -/
def pWord (pred : Char → Bool) : PEl where
  skipWs := true
  callPre := true
  impl s :=
    let run := s.takeWhile pred
    if run.isEmpty then none else some (s.drop run.length, [Tok.s (String.mk run)])

/-- `pp.Word(chars, exact=2)`: exactly two matching characters (no
following-character restriction: `maxSpecified` is false for `exact=`). -/
def pWord2 (pred : Char → Bool) : PEl where
  skipWs := true
  callPre := true
  impl s :=
    match s with
    | c1 :: c2 :: rest => if pred c1 && pred c2 then some (rest, [Tok.s (String.mk [c1, c2])]) else none
    | _ => none

/-- `pp.Char(charset)`: exactly one matching character. -/
def pChar (pred : Char → Bool) : PEl where
  skipWs := true
  callPre := true
  impl s :=
    match s with
    | c :: rest => if pred c then some (rest, [Tok.s (String.mk [c])]) else none
    | _ => none

/-- `pp.White()`: one or more characters from `" \t\r\n"`, kept as one token. -/
def pWhite : PEl where
  skipWs := true
  callPre := true
  impl s :=
    let run := s.takeWhile isWhiteMatch
    if run.isEmpty then none else some (s.drop run.length, [Tok.s (String.mk run)])

/-- `pp.And` (the `+` operator): the first element is parsed with
`callPreParse=False` (the `And`'s own `preParse` already ran), later elements
with `callPreParse=True`.  `skipWhitespace` is inherited from the first
element. -/
def pSeq (p q : PEl) : PEl where
  skipWs := p.skipWs
  callPre := true
  impl s :=
    match p.parse false s with
    | none => none
    | some (s1, t1) =>
      match q.parse true s1 with
      | none => none
      | some (s2, t2) => some (s2, t1 ++ t2)

/-- `pp.MatchFirst` (the `|` operator): ordered alternation, first success
wins; `callPreparse` is false for `ParseExpression`s, `skipWhitespace` holds
only if it holds for every alternative. -/
def pOr (p q : PEl) : PEl where
  skipWs := p.skipWs && q.skipWs
  callPre := false
  impl s :=
    match p.parse true s with
    | some r => some r
    | none => q.parse true s

/-- `pp.Opt`: its `parseImpl` tries the inner element with
`callPreParse=False`; on failure it succeeds at its own (post-`preParse`)
position with no tokens.  Flags are copied from the inner element. -/
def pOpt (p : PEl) : PEl where
  skipWs := p.skipWs
  callPre := p.callPre
  impl s :=
    match p.impl s with
    | some r => some r
    | none => some (s, [])

/-- Iteration core of `pp.ZeroOrMore`: the inner element is re-parsed (with
`callPreParse=True`) until it fails; every successful iteration of this
grammar consumes at least one character, so fuel `s.length + 1` is never
exhausted. -/
def zomRun (p : PEl) : Nat → List Char → List Char × List Tok
  | 0, s => (s, [])
  | fuel + 1, s =>
    match p.parse true s with
    | none => (s, [])
    | some (s1, t1) =>
      let r := zomRun p fuel s1
      (r.1, t1 ++ r.2)

/-- `pp.ZeroOrMore`. -/
def pZom (p : PEl) : PEl where
  skipWs := p.skipWs
  callPre := p.callPre
  impl s := some (zomRun p (s.length + 1) s)

/-- `pp.NotAny` (the `~` operator): negative lookahead, never consumes;
`skipWhitespace` is explicitly disabled on the `NotAny` itself, but the
lookahead parse of the inner element runs with `callPreParse=True`. -/
def pNot (p : PEl) : PEl where
  skipWs := false
  callPre := p.callPre
  impl s :=
    match p.parse true s with
    | some _ => none
    | none => some (s, [])

/-- String content of a token (group tokens do not occur where this is
used). -/
def Tok.str : Tok → String
  | .s v => v
  | .g _ => ""

/-- `pp.Group`: wrap the inner element's tokens in one nested list. -/
def pGroup (p : PEl) : PEl where
  skipWs := p.skipWs
  callPre := p.callPre
  impl s :=
    match p.impl s with
    | none => none
    | some (s1, toks) => some (s1, [Tok.g (toks.map Tok.str)])

/-- `pp.Combine`: inner elements are `leave_whitespace`d (done at the call
sites below by building them from `.lw` primitives) and the produced tokens
are joined into one; the `Combine` itself re-enables whitespace skipping. -/
def pCombine (p : PEl) : PEl where
  skipWs := true
  callPre := true
  impl s :=
    match p.impl s with
    | none => none
    | some (s1, toks) => some (s1, [Tok.s (String.join (toks.map Tok.str))])

/-- `leave_whitespace()` on a primitive element (recursive application to a
composite is modelled by building the composite out of `.lw` leaves: composite
combinators above inherit `skipWs` from their children). -/
def PEl.lw (p : PEl) : PEl := { p with skipWs := false }

/-- `parse_string(v, parse_all=True)` used by `ParserElement.matches` /
`__eq__` against a string: parse from the start, then skip trailing default
whitespace and require end of input. -/
def PEl.matchesAll (p : PEl) (v : String) : Bool :=
  match p.parse true v.data with
  | some (rest, _) => dropWs rest = []
  | none => false

/-! ## The token grammar of `hpgl_input.py` -/
/-- Membership in `all_chars` (`chr(0)` .. `chr(255)`). -/
def inAllChars (c : Char) : Bool := c.val < 256

/-- Source: `not_semicolon = pp.Char(all_chars - set(";"))`. -/
def not_semicolon : PEl := pChar (fun c => inAllChars c && c ≠ ';')

/-- Source: `command_terminator = pp.Literal(";")`. -/
def command_terminator : PEl := pLit ";"

/-- Python `str.lower()` on the ASCII mnemonics used here. -/
def strLower (m : String) : String := String.mk (m.data.map Char.toLower)

/-- Python `str.upper()` on the ASCII mnemonics used here. -/
def strUpper (m : String) : String := String.mk (m.data.map Char.toUpper)

/-- Source: `mnemonic = lambda m: pp.Literal(m.lower()) | pp.Literal(m.upper())`. -/
def mnemonic (m : String) : PEl := pOr (pLit (strLower m)) (pLit (strUpper m))

/-- The same mnemonic alternation after a recursive `leave_whitespace()`. -/
def mnemonicLw (m : String) : PEl := pOr (pLit (strLower m)).lw (pLit (strUpper m)).lw

def mn_pen_up : PEl := mnemonic "PU"

def mn_pen_down : PEl := mnemonic "PD"

def mn_polyline_encoded : PEl := mnemonic "PE"

def mn_symbol_mode : PEl := mnemonic "SM"

def mn_label : PEl := mnemonic "LB"

def mn_define_label_terminator : PEl := mnemonic "DT"

def isUpperAlpha (c : Char) : Bool := 'A' ≤ c && c ≤ 'Z'

def isLowerAlpha (c : Char) : Bool := 'a' ≤ c && c ≤ 'z'

/-- Source: `mn_other = pp.Word(pp.alphas.upper(), exact=2) | pp.Word(pp.alphas.lower(), exact=2)`. -/
def mn_other : PEl := pOr (pWord2 isUpperAlpha) (pWord2 isLowerAlpha)

/-- Source: `numeric_parameter = pp.Combine(pp.Word(pp.nums) + pp.Opt(pp.Literal(".") + pp.Word(pp.nums)))`
(`Combine` recursively `leave_whitespace`s its contents). -/
def numeric_parameter : PEl :=
  pCombine (pSeq (pWord Char.isDigit).lw
    (pOpt (pSeq (pLit ".").lw (pWord Char.isDigit).lw)))

/-- Membership in the separator character class `",+-"`. -/
def isSepChar (c : Char) : Bool := c = ',' || c = '+' || c = '-'

/-- Source: `numeric_separator = pp.Char(",+-")`. -/
def numeric_separator : PEl := pChar isSepChar

/-- Source lines 89-91. -/
def first_numeric_parameter_pair : PEl :=
  pSeq (pSeq numeric_parameter (pOpt numeric_separator)) numeric_parameter

/-- Source lines 92-97. -/
def next_numeric_parameter_pair : PEl :=
  pSeq (pSeq (pSeq (pOpt numeric_separator) numeric_parameter)
    (pOpt numeric_separator)) numeric_parameter

/-- Source line 102. -/
def unpaired_first_numeric_parameter : PEl := numeric_parameter

/-- Source line 103. -/
def unpaired_next_numeric_parameter : PEl :=
  pSeq (pOpt numeric_separator) numeric_parameter

/-- The grouped run of pairs (source lines 109-111): a first pair followed by
zero or more further pairs, wrapped in `pp.Group`. -/
def pair_group_part : PEl :=
  pGroup (pSeq first_numeric_parameter_pair (pZom next_numeric_parameter_pair))

/-- The grouped pairs optionally followed by one unpaired parameter (source
lines 108-113). -/
def paired_alternative : PEl :=
  pSeq pair_group_part (pOpt unpaired_next_numeric_parameter)

/-- A lone optional unpaired parameter (source line 114). -/
def unpaired_alternative : PEl := pOpt unpaired_first_numeric_parameter

/-- Source lines 107-115: either alternative, then `~numeric_separator`. -/
def numeric_parameter_pair_list : PEl :=
  pSeq (pOr paired_alternative unpaired_alternative) (pNot numeric_separator)

/-- Source line 125. -/
def cmd_pen_down : PEl :=
  pSeq (pSeq mn_pen_down numeric_parameter_pair_list) (pOpt command_terminator)

/-- Source line 135. -/
def cmd_pen_up : PEl :=
  pSeq (pSeq mn_pen_up numeric_parameter_pair_list) (pOpt command_terminator)

/-- Source lines 148-150 (terminating semicolon is required). -/
def cmd_polyline_encoded : PEl :=
  pSeq (pSeq mn_polyline_encoded (pZom not_semicolon)) command_terminator

/-- Source lines 194-196: `{161, 254} | range(33, 59) | range(60, 126)`. -/
def smValidChar (c : Char) : Bool :=
  c.val = 161 || c.val = 254 || (33 ≤ c.val && c.val ≤ 58) || (60 ≤ c.val && c.val ≤ 125)

/-- Source lines 198-200. -/
def cmd_symbol_mode : PEl :=
  pSeq mn_symbol_mode
    (pOr (pSeq (pChar smValidChar) (pOpt command_terminator)) command_terminator)

/-- Source line 220: `all_chars - {chr(x) for x in [0, 5, 27, 59]}`. -/
def inLabelTerminatorChars (c : Char) : Bool :=
  inAllChars c && c.val ≠ 0 && c.val ≠ 5 && c.val ≠ 27 && c.val ≠ 59

/-- Source line 221. -/
def label_terminator : PEl := pChar inLabelTerminatorChars

/-- Source lines 230-236.  The first alternative's head
`(pp.Opt(pp.White()) + mn_define_label_terminator + label_terminator)` is
recursively `leave_whitespace`d; the optional mode and terminator parts and
the second (abort) alternative are not. -/
def cmd_define_label_terminator : PEl :=
  pOr
    (pSeq
      (pSeq
        (pSeq (pSeq (pOpt pWhite.lw) (mnemonicLw "DT")) label_terminator.lw)
        (pOpt (pSeq (pOpt numeric_separator) (pChar (fun c => c = '0' || c = '1')))))
      (pOpt command_terminator))
    (pSeq mn_define_label_terminator command_terminator)

/-- Source lines 259-266: the label body and its terminating character are
parsed with `leave_whitespace`; the trailing optional semicolon is not.  The
argument is the current label-terminator string held by the driver. -/
def cmd_label (lt : String) : PEl :=
  pSeq
    (pSeq
      (pSeq (mnemonicLw "LB")
        (pZom (pWord (fun c => inAllChars c && !lt.data.contains c)).lw))
      (pLit lt).lw)
    (pOpt command_terminator)

/-- Source lines 280-284. -/
def cmd_other : PEl :=
  pSeq (pSeq mn_other (pZom (pOr numeric_separator numeric_parameter)))
    (pOpt command_terminator)

/-- Source lines 292-303: ordered alternation over the per-command grammars,
parameterized by the current label terminator. -/
def command (lt : String) : PEl :=
  pOr
    (pOr
      (pOr
        (pOr (pOr (pOr cmd_pen_up cmd_pen_down) cmd_polyline_encoded) cmd_symbol_mode)
        (cmd_label lt))
      cmd_define_label_terminator)
    cmd_other

/-! ## The scanning driver of `hpgl_input.py` (`extract_param_pairs`, `parse_hp_gl`) -/
/-- Value of an all-digit string. -/
def digitsToNat (l : List Char) : Nat :=
  l.foldl (fun a c => a * 10 + (c.toNat - 48)) 0

/-- Python `int()` on the token strings this program feeds it (runs of digits,
possibly with an embedded decimal point): it succeeds exactly on nonempty
all-digit strings; a fractional literal such as `"12.5"` raises `ValueError`. -/
def pyInt (v : String) : Option Int :=
  if !v.data.isEmpty && v.data.all Char.isDigit then
    some (Int.ofNat (digitsToNat v.data))
  else none

/-- One emitted element of the generator: the mnemonic token (exactly as
matched, e.g. `"PU"`) and the extracted coordinate pairs. -/
abbrev Event := String × List (Int × Int)

/-- Terminal failure of a scan: the four `HPGLParseException` kinds raised by
`parse_hp_gl`, plus the `ValueError` that `int()` raises inside
`extract_param_pairs` on a fractional literal. -/
inductive PyFailure where
  | failedToParse (excerpt : String)
  | misaligned (excerpt : String) (matchStart : Nat)
  | emptyFile
  | missingSemicolon
  | valueError
deriving DecidableEq, Repr

/-- One step of the group-finding scan: a nested `ParseResults` replaces the
accumulator, a plain string leaves it. -/
def lastGroupStep (acc : List String) : Tok → List String
  | .g l => l
  | .s _ => acc

/-- Source lines 319-322: scan all tokens, remembering the (last) nested
`ParseResults` group, defaulting to the empty list. -/
def lastGroup (toks : List Tok) : List String :=
  toks.foldl lastGroupStep []

/-- Source lines 324-334: keep the tokens accepted by
`numeric_parameter.parse_string` and convert each with `int()`; a conversion
failure is Python's `ValueError` (`none`). -/
def intParams : List String → Option (List Int)
  | [] => some []
  | p :: rest =>
    if (numeric_parameter.parse true p.data).isSome then
      match pyInt p with
      | none => none
      | some v => (intParams rest).map (fun l => v :: l)
    else intParams rest

/-- Source lines 337-340: `while int_params: x, y, *int_params = int_params`.
Unpacking a single leftover element raises `ValueError` (`none`); this is
unreachable from the grammar, whose groups always hold evenly many
numerics. -/
def pairUp : List Int → Option (List (Int × Int))
  | [] => some []
  | [_] => none
  | x :: y :: rest => (pairUp rest).map (fun l => (x, y) :: l)

/-- Source lines 315-342. -/
def extract_param_pairs (toks : List Tok) : Option (List (Int × Int)) :=
  match intParams (lastGroup toks) with
  | none => none
  | some ps => pairUp ps

/-- Source line 390: `this_command[0] in (mn_pen_up, mn_pen_down)`.  A string
token is compared with `ParserElement.matches(token, parse_all=True)`; a
group compares unequal to a parser element. -/
def isPenUpOrDown : Tok → Bool
  | .s v => mn_pen_up.matchesAll v || mn_pen_down.matchesAll v
  | .g _ => false

/-- Comparison with `mn_define_label_terminator` (source lines 395, 400). -/
def isDTMnemonic : Tok → Bool
  | .s v => mn_define_label_terminator.matchesAll v
  | .g _ => false

/-- Source line 399: `this_command[0].strip() == ""` (only ever reached on a
string token). -/
def tokStripEmpty : Tok → Bool
  | .s v => (pyStrip v.data).isEmpty
  | .g _ => false

/-- Source lines 394-402: the two (sequential, non-exclusive) label-terminator
update conditionals. -/
def updateLabelTerminator (lt : String) (toks : List Tok) : String :=
  let lt1 :=
    if toks.length = 2 && isDTMnemonic (toks.getD 0 (Tok.s "")) then
      (toks.getD 1 (Tok.s "")).str
    else lt
  if toks.length = 3 && tokStripEmpty (toks.getD 0 (Tok.s "")) &&
      isDTMnemonic (toks.getD 1 (Tok.s "")) then
    (toks.getD 2 (Tok.s "")).str
  else lt1

/-- Source line 423: `";" not in this_command[-1]`.  On a string token this is
a substring test; on a group token (a `ParseResults`) Python's `in` consults
the result-name dictionary, which this grammar never populates, so it is
always false there. -/
def semicolonInLast (toks : List Tok) : Bool :=
  match toks.getLast? with
  | some (.s v) => v.data.contains ';'
  | some (.g _) => false
  | none => false

/-- First match of `scan_string` (source line 364): try a full parse at each
successive location; `loc` is the absolute offset scanned so far, the result
carries the tokens, the reported match start (`preloc`) and the end offset.
A match that does not advance past `loc` is skipped like a failure. -/
def scanFirst (p : PEl) : Nat → Nat → List Char → Option (List Tok × Nat × Nat)
  | 0, _, _ => none
  | fuel + 1, loc, s =>
    let pre := if p.skipWs then dropWs s else s
    let preloc := loc + (s.length - pre.length)
    match p.impl pre with
    | some (rest, toks) =>
      let nextLoc := preloc + (pre.length - rest.length)
      if loc < nextLoc then some (toks, preloc, nextLoc)
      else scanFirst p fuel (preloc + 1) (pre.drop 1)
    | none => scanFirst p fuel (preloc + 1) (pre.drop 1)

/-- Error-message excerpt `document[this_ptr : this_ptr + 20]`. -/
def excerptAt (doc : List Char) (ptr : Nat) : String :=
  String.mk ((doc.drop ptr).take 20)

/-- Source lines 389-392: the event yielded for one matched command, if any.
The outer `none` is the `ValueError` raised by `extract_param_pairs`; the
inner `none` means the command is not Pen-Up/Pen-Down and nothing is
yielded. -/
def emittedEvent (toks : List Tok) : Option (Option Event) :=
  if isPenUpOrDown (toks.getD 0 (Tok.s "")) then
    match extract_param_pairs toks with
    | none => none
    | some pairs => some (some ((toks.getD 0 (Tok.s "")).str, pairs))
  else some none

/-- The scanning loop of `parse_hp_gl` (source lines 359-424), with the
mutable cursor, label-terminator state and last-command memory made explicit.
Fuel `doc.length + 1` is never exhausted: every iteration advances the cursor
by at least one position.  The result lists the events yielded before
completion or failure, and the failure if one was raised. -/
def parseLoop (doc : List Char) :
    Nat → Nat → String → Option (List Tok) → List Event × Option PyFailure
  | 0, _, _, _ => ([], none)
  | fuel + 1, ptr, lt, lastCmd =>
    if ptr < doc.length then
      let rest := pyExpandTabs (doc.drop ptr) 0
      match scanFirst (command lt) (rest.length + 2) 0 rest with
      | none => ([], some (.failedToParse (excerptAt doc ptr)))
      | some (toks, first, nextLoc) =>
        if first ≠ 0 then ([], some (.misaligned (excerptAt doc ptr) first))
        else
          match emittedEvent toks with
          | none => ([], some .valueError)
          | some ev? =>
            let r := parseLoop doc fuel (ptr + nextLoc) (updateLabelTerminator lt toks) (some toks)
            (ev?.toList ++ r.1, r.2)
    else
      match lastCmd with
      | none => ([], some .emptyFile)
      | some toks =>
        if semicolonInLast toks then ([], none) else ([], some .missingSemicolon)

/-- Source lines 348-424: scan a whole document.  The returned list holds the
`(mnemonic, pairs)` events the generator yields, in order; the optional
`PyFailure` is the terminal error, raised after those events were already
delivered. -/
def parse_hp_gl (document : String) : List Event × Option PyFailure :=
  let doc := pyStrip document.data
  parseLoop doc (doc.length + 1) 0 (String.mk [Char.ofNat 3]) none

/-! ## Canonical Pen-Up / Pen-Down command texts (claim C2) -/
/-- Canonical comma-separated rendering of a numeric parameter list. -/
def renderParams : List (List Char) → List Char
  | [] => []
  | [d] => d
  | d :: rest => d ++ ',' :: renderParams rest

/-- Canonical Pen-Up/Pen-Down command document: mnemonic, comma-separated
parameters, terminating semicolon. -/
def penCmdText (mn : String) (ds : List (List Char)) : String :=
  String.mk (mn.data ++ renderParams ds ++ [';'])

/-- Nonempty all-digit literal. -/
def isDigits (d : List Char) : Prop := d ≠ [] ∧ d.all Char.isDigit = true

instance (d : List Char) : Decidable (isDigits d) := by
  unfold isDigits
  infer_instance

/-- The pairing predicted by the specification: values two at a time in
encounter order, a trailing unpaired value dropped. -/
def claimPairs : List (List Char) → List (Int × Int)
  | d1 :: d2 :: rest =>
    (Int.ofNat (digitsToNat d1), Int.ofNat (digitsToNat d2)) :: claimPairs rest
  | _ => []

/-- Boundary condition after a numeric literal: the next character (if any)
is neither a digit nor a decimal point. -/
def numBoundary (t : List Char) : Prop :=
  ∀ c, t.head? = some c → c.isDigit = false ∧ c ≠ '.'

/-- Rendering of the parameters after the first pair: empty, or a comma
followed by the remaining comma-separated parameters. -/
def renderTail : List (List Char) → List Char
  | [] => []
  | l => ',' :: renderParams l

/-- Group-token strings contributed by the pairs after the first. -/
def evenStrs : List (List Char) → List String
  | d1 :: d2 :: rest => "," :: String.mk d1 :: "," :: String.mk d2 :: evenStrs rest
  | _ => []

/-- Input left over after all full pairs are consumed. -/
def oddRem : List (List Char) → List Char
  | _ :: _ :: rest => oddRem rest
  | [d] => ',' :: d
  | [] => []

/-- Tokens of the trailing unpaired parameter, if any. -/
def oddToks : List (List Char) → List Tok
  | _ :: _ :: rest => oddToks rest
  | [d] => [Tok.s ",", Tok.s (String.mk d)]
  | [] => []

/-- Strings held by the parameter-pair group of a canonical command with at
least one full pair. -/
def groupStrs (d1 d2 : List Char) (rs : List (List Char)) : List String :=
  String.mk d1 :: "," :: String.mk d2 :: evenStrs rs

/-- The full token list produced by `numeric_parameter_pair_list` on a
canonical parameter list. -/
def npplToks : List (List Char) → List Tok
  | [] => []
  | [d] => [Tok.s (String.mk d)]
  | d1 :: d2 :: rest => Tok.g (groupStrs d1 d2 rest) :: oddToks rest

/-! ## Extraction of pairs from the canonical command tokens -/
/-- Integer values of the evenly-paired parameters, in encounter order. -/
def evenVals : List (List Char) → List Int
  | d1 :: d2 :: rest =>
    Int.ofNat (digitsToNat d1) :: Int.ofNat (digitsToNat d2) :: evenVals rest
  | _ => []

/-! ## Helper lemmas for symbolic parsing of canonical command texts -/
theorem string_join_single (v : String) : String.join [v] = v := by
  simp [String.join]

theorem ne_of_isDigit {c d : Char} (h : c.isDigit = true) (hd : d.isDigit = false) :
    c ≠ d := by
  intro he
  rw [he, hd] at h
  exact Bool.false_ne_true h

theorem isDefaultWhite_of_isDigit {c : Char} (h : c.isDigit = true) :
    isDefaultWhite c = false := by
  have h1 : c ≠ ' ' := ne_of_isDigit h (by decide)
  have h2 : c ≠ '\n' := ne_of_isDigit h (by decide)
  have h3 : c ≠ '\t' := ne_of_isDigit h (by decide)
  simp [isDefaultWhite, h1, h2, h3]

theorem isSepChar_of_isDigit {c : Char} (h : c.isDigit = true) :
    isSepChar c = false := by
  have h1 : c ≠ ',' := ne_of_isDigit h (by decide)
  have h2 : c ≠ '+' := ne_of_isDigit h (by decide)
  have h3 : c ≠ '-' := ne_of_isDigit h (by decide)
  simp [isSepChar, h1, h2, h3]

theorem dropWs_cons_of_not_white {c : Char} {t : List Char}
    (h : isDefaultWhite c = false) : dropWs (c :: t) = c :: t := by
  simp [dropWs, List.dropWhile_cons, h]

theorem takeWhile_append_all {p : Char → Bool} :
    ∀ (d t : List Char), (∀ c ∈ d, p c = true) →
      (∀ c, t.head? = some c → p c = false) → (d ++ t).takeWhile p = d := by
  intro d
  induction d with
  | nil =>
    intro t _ ht
    cases t with
    | nil => rfl
    | cons c t2 => simp [List.takeWhile_cons, ht c rfl]
  | cons a d ih =>
    intro t hall ht
    simp only [List.cons_append, List.takeWhile_cons, hall a (by simp), if_true]
    rw [ih t (fun c hc => hall c (by simp [hc])) ht]

theorem numeric_parameter_impl_run {d t : List Char} (hd : isDigits d)
    (ht : numBoundary t) :
    numeric_parameter.impl (d ++ t) = some (t, [Tok.s (String.mk d)]) := by
  obtain ⟨hne, hall⟩ := hd
  rw [List.all_eq_true] at hall
  have htw : (d ++ t).takeWhile Char.isDigit = d :=
    takeWhile_append_all d t hall (fun c hc => (ht c hc).1)
  have hpre : List.isPrefixOf ['.'] t = false := by
    cases t with
    | nil => rfl
    | cons c t2 =>
      have := (ht c rfl).2
      simp [List.isPrefixOf, this, Ne.symm this]
  simp only [numeric_parameter, pCombine, pSeq, pOpt, PEl.lw, pWord, pLit, PEl.parse]
  simp only [Bool.false_and, Bool.and_false, Bool.and_self, if_false, Bool.and_true]
  simp only [htw, List.isEmpty_eq_false.mpr hne, Bool.false_eq_true, if_false]
  simp only [List.drop_left]
  have hdot : ("." : String).data = ['.'] := rfl
  simp only [hdot, hpre, Bool.false_eq_true, if_false]
  simp [string_join_single, Tok.str]

theorem parse_false (p : PEl) (s : List Char) : p.parse false s = p.impl s := by
  simp [PEl.parse]

theorem parse_true_skip (p : PEl) (s : List Char) (h1 : p.callPre = true)
    (h2 : p.skipWs = true) : p.parse true s = p.impl (dropWs s) := by
  simp [PEl.parse, h1, h2]

theorem numeric_parameter_parse_run {d t : List Char} (b : Bool) (hd : isDigits d)
    (ht : numBoundary t) :
    numeric_parameter.parse b (d ++ t) = some (t, [Tok.s (String.mk d)]) := by
  have hcp : numeric_parameter.callPre = true := rfl
  have hsw : numeric_parameter.skipWs = true := rfl
  cases b with
  | false => simpa [PEl.parse] using numeric_parameter_impl_run hd ht
  | true =>
    obtain ⟨c, d2, rfl⟩ := List.exists_cons_of_ne_nil hd.1
    have hc : c.isDigit = true := by
      have h2 := hd.2
      rw [List.all_eq_true] at h2
      exact h2 c (by simp)
    simp only [PEl.parse, hcp, hsw, Bool.and_true, Bool.true_and, if_true]
    rw [List.cons_append, dropWs_cons_of_not_white (isDefaultWhite_of_isDigit hc),
      ← List.cons_append]
    exact numeric_parameter_impl_run hd ht

theorem optSep_parse_comma (b : Bool) (t : List Char) :
    (pOpt numeric_separator).parse b (',' :: t) = some (t, [Tok.s ","]) := by
  cases b <;>
    simp [PEl.parse, pOpt, numeric_separator, pChar, dropWs, List.dropWhile_cons,
      isDefaultWhite, isSepChar]

theorem numBoundary_comma (t : List Char) : numBoundary (',' :: t) := by
  intro c hc
  simp at hc
  subst hc
  exact ⟨by decide, by decide⟩

theorem numBoundary_semi : numBoundary [';'] := by
  intro c hc
  simp at hc
  subst hc
  exact ⟨by decide, by decide⟩

theorem numBoundary_nil : numBoundary ([] : List Char) := by
  intro c hc
  simp at hc

theorem first_pair_run {d1 d2 t : List Char} (h1 : isDigits d1) (h2 : isDigits d2)
    (ht : numBoundary t) :
    first_numeric_parameter_pair.parse false (d1 ++ (',' :: (d2 ++ t))) =
      some (t, [Tok.s (String.mk d1), Tok.s ",", Tok.s (String.mk d2)]) := by
  have e1 := numeric_parameter_impl_run h1 (numBoundary_comma (d2 ++ t))
  have e2 := numeric_parameter_parse_run true h2 ht
  have e3 := optSep_parse_comma true (d2 ++ t)
  simp only [first_numeric_parameter_pair, pSeq, parse_false, e1, e3, e2]
  simp

theorem next_pair_run {d1 d2 t : List Char} (h1 : isDigits d1) (h2 : isDigits d2)
    (ht : numBoundary t) :
    next_numeric_parameter_pair.parse true (',' :: (d1 ++ (',' :: (d2 ++ t)))) =
      some (t, [Tok.s ",", Tok.s (String.mk d1), Tok.s ",", Tok.s (String.mk d2)]) := by
  have e1 := optSep_parse_comma false (d1 ++ (',' :: (d2 ++ t)))
  rw [parse_false] at e1
  have e2 := numeric_parameter_parse_run true h1 (numBoundary_comma (d2 ++ t))
  have e3 := optSep_parse_comma true (d2 ++ t)
  have e4 := numeric_parameter_parse_run true h2 ht
  rw [parse_true_skip _ _ rfl rfl, dropWs_cons_of_not_white (by decide)]
  simp only [next_numeric_parameter_pair, pSeq, parse_false, e1, e2, e3, e4]
  simp

theorem next_pair_semi :
    next_numeric_parameter_pair.parse true [';'] = none := by decide

theorem next_pair_odd {d : List Char} (hd : isDigits d) :
    next_numeric_parameter_pair.parse true (',' :: (d ++ [';'])) = none := by
  have e1 := optSep_parse_comma false (d ++ [';'])
  rw [parse_false] at e1
  have e2 := numeric_parameter_parse_run true hd numBoundary_semi
  have e3 : (pOpt numeric_separator).parse true [';'] = some ([';'], []) := by decide
  have e4 : numeric_parameter.parse true [';'] = none := by decide
  rw [parse_true_skip _ _ rfl rfl, dropWs_cons_of_not_white (by decide)]
  simp only [next_numeric_parameter_pair, pSeq, parse_false, e1, e2, e3, e4]

theorem renderTail_cons (d : List Char) (rest : List (List Char)) :
    renderTail (d :: rest) = ',' :: renderParams (d :: rest) := rfl

theorem renderParams_eq_renderTail (d : List Char) (rest : List (List Char)) :
    renderParams (d :: rest) = d ++ renderTail rest := by
  cases rest with
  | nil => simp [renderParams, renderTail]
  | cons e r => simp [renderParams, renderTail]

theorem numBoundary_renderTail (rs : List (List Char)) :
    numBoundary (renderTail rs ++ [';']) := by
  cases rs with
  | nil => exact numBoundary_semi
  | cons d r =>
    rw [renderTail_cons]
    intro c hc
    simp at hc
    subst hc
    exact ⟨by decide, by decide⟩

theorem renderTail_cons_cons (d1 d2 : List Char) (rs : List (List Char)) :
    renderTail (d1 :: d2 :: rs) =
      ',' :: (d1 ++ (',' :: (d2 ++ renderTail rs))) := by
  rw [renderTail_cons, renderParams_eq_renderTail, renderTail_cons,
    renderParams_eq_renderTail]

theorem renderTail_length (rs : List (List Char)) : rs.length ≤ (renderTail rs).length := by
  match rs with
  | [] => simp [renderTail]
  | [d] => simp [renderTail, renderParams]
  | d1 :: d2 :: r =>
    have ih := renderTail_length r
    rw [renderTail_cons_cons]
    simp only [List.length_cons, List.length_append]
    omega
termination_by rs.length

theorem zom_next_run (rest : List (List Char)) (fuel : Nat)
    (h : ∀ d ∈ rest, isDigits d) (hf : rest.length + 1 ≤ fuel) :
    zomRun next_numeric_parameter_pair fuel (renderTail rest ++ [';']) =
      (oddRem rest ++ [';'], (evenStrs rest).map Tok.s) := by
  match rest, h with
  | [], h =>
    match fuel, hf with
    | f + 1, _ =>
      simp [renderTail, zomRun, next_pair_semi, oddRem, evenStrs]
  | [d], h =>
    match fuel, hf with
    | f + 1, _ =>
      have hd : isDigits d := h d (by simp)
      rw [renderTail_cons]
      simp only [renderParams, List.cons_append]
      simp [zomRun, next_pair_odd hd, oddRem, evenStrs, renderParams]
  | d1 :: d2 :: rs, h =>
    match fuel, hf with
    | f + 1, hf =>
      have h1 : isDigits d1 := h d1 (by simp)
      have h2 : isDigits d2 := h d2 (by simp)
      have hrs : ∀ d ∈ rs, isDigits d := fun d hd => h d (by simp [hd])
      have ih := zom_next_run rs f hrs (by simp at hf ⊢; omega)
      have hin : renderTail (d1 :: d2 :: rs) ++ [';'] =
          ',' :: (d1 ++ (',' :: (d2 ++ (renderTail rs ++ [';'])))) := by
        rw [renderTail_cons_cons]
        simp [List.append_assoc]
      rw [hin]
      have e1 := next_pair_run h1 h2 (numBoundary_renderTail rs)
      simp [zomRun, e1, ih, oddRem, evenStrs]
termination_by rest.length

theorem dropWs_renderTail (rs : List (List Char)) :
    dropWs (renderTail rs ++ [';']) = renderTail rs ++ [';'] := by
  cases rs with
  | nil => simp [renderTail]; rfl
  | cons d r =>
    rw [renderTail_cons, List.cons_append]
    exact dropWs_cons_of_not_white (by decide)

theorem tok_str_s (v : String) : (Tok.s v).str = v := rfl

theorem group_run {d1 d2 : List Char} {rs : List (List Char)}
    (h1 : isDigits d1) (h2 : isDigits d2) (hrs : ∀ d ∈ rs, isDigits d) :
    pair_group_part.parse false (d1 ++ (',' :: (d2 ++ (renderTail rs ++ [';'])))) =
      some (oddRem rs ++ [';'], [Tok.g (groupStrs d1 d2 rs)]) := by
  have e1 := first_pair_run h1 h2 (numBoundary_renderTail rs)
  rw [parse_false] at e1
  have e2 : (pZom next_numeric_parameter_pair).parse true (renderTail rs ++ [';']) =
      some (oddRem rs ++ [';'], (evenStrs rs).map Tok.s) := by
    rw [parse_true_skip _ _ rfl rfl, dropWs_renderTail]
    show some (zomRun next_numeric_parameter_pair _ _) = _
    rw [zom_next_run rs _ hrs
      (by have := renderTail_length rs; simp [List.length_append]; omega)]
  simp only [pair_group_part, pGroup, pSeq, parse_false, e1, e2]
  have hc : Tok.str ∘ Tok.s = id := funext fun v => rfl
  simp [groupStrs, tok_str_s, Tok.str, hc]

theorem oddRem_spec (rs : List (List Char)) (h : ∀ d ∈ rs, isDigits d) :
    (oddRem rs = [] ∧ oddToks rs = []) ∨
      ∃ d, isDigits d ∧ oddRem rs = ',' :: d ∧
        oddToks rs = [Tok.s ",", Tok.s (String.mk d)] := by
  match rs, h with
  | [], _ => exact Or.inl ⟨rfl, rfl⟩
  | [d], h => exact Or.inr ⟨d, h d (by simp), rfl, rfl⟩
  | d1 :: d2 :: rs2, h =>
    exact oddRem_spec rs2 (fun d hd => h d (by simp [hd]))
termination_by rs.length

theorem sep_impl_comma (t : List Char) :
    numeric_separator.impl (',' :: t) = some (t, [Tok.s ","]) := by
  simp [numeric_separator, pChar, isSepChar]

theorem unpaired_run (rs : List (List Char)) (h : ∀ d ∈ rs, isDigits d) :
    (pOpt unpaired_next_numeric_parameter).parse true (oddRem rs ++ [';']) =
      some ([';'], oddToks rs) := by
  rcases oddRem_spec rs h with ⟨hr, ht⟩ | ⟨d, hd, hr, ht⟩
  · rw [hr, ht]
    decide
  · rw [hr, ht, List.cons_append]
    rw [parse_true_skip _ _ rfl rfl, dropWs_cons_of_not_white (by decide)]
    have e2 := numeric_parameter_parse_run true hd numBoundary_semi
    simp only [pOpt, unpaired_next_numeric_parameter, pSeq, parse_false,
      sep_impl_comma, e2]
    simp

theorem dropWs_digits {d t : List Char} (hd : isDigits d) :
    dropWs (d ++ t) = d ++ t := by
  obtain ⟨c, d2, rfl⟩ := List.exists_cons_of_ne_nil hd.1
  have hc : c.isDigit = true := by
    have h2 := hd.2
    rw [List.all_eq_true] at h2
    exact h2 c (by simp)
  rw [List.cons_append]
  exact dropWs_cons_of_not_white (isDefaultWhite_of_isDigit hc)

theorem paired_alt_fail_single {d : List Char} (hd : isDigits d) :
    paired_alternative.parse true (d ++ [';']) = none := by
  rw [parse_true_skip _ _ rfl rfl, dropWs_digits hd]
  have hfp : first_numeric_parameter_pair.impl (d ++ [';']) = none := by
    have enp := numeric_parameter_impl_run hd numBoundary_semi
    have eopt : (pOpt numeric_separator).parse true [';'] = some ([';'], []) := by decide
    have enp2 : numeric_parameter.parse true [';'] = none := by decide
    simp only [first_numeric_parameter_pair, pSeq, parse_false, enp, eopt, enp2]
  simp only [paired_alternative, pair_group_part, pGroup, pSeq, parse_false, hfp]

theorem paired_alt_run {d1 d2 : List Char} {rs : List (List Char)}
    (h1 : isDigits d1) (h2 : isDigits d2) (hrs : ∀ d ∈ rs, isDigits d) :
    paired_alternative.parse true (d1 ++ (',' :: (d2 ++ (renderTail rs ++ [';'])))) =
      some ([';'], Tok.g (groupStrs d1 d2 rs) :: oddToks rs) := by
  rw [parse_true_skip _ _ rfl rfl, dropWs_digits h1]
  have e1 := group_run h1 h2 hrs
  rw [parse_false] at e1
  have e2 := unpaired_run rs hrs
  simp only [paired_alternative, pSeq, parse_false, e1, e2]
  simp

theorem unpaired_alt_run_single {d : List Char} (hd : isDigits d) :
    unpaired_alternative.parse true (d ++ [';']) =
      some ([';'], [Tok.s (String.mk d)]) := by
  rw [parse_true_skip _ _ rfl rfl, dropWs_digits hd]
  have e := numeric_parameter_impl_run hd numBoundary_semi
  simp only [unpaired_alternative, unpaired_first_numeric_parameter, pOpt, e]

theorem nppl_run (ds : List (List Char)) (h : ∀ d ∈ ds, isDigits d) :
    numeric_parameter_pair_list.parse true (renderParams ds ++ [';']) =
      some ([';'], npplToks ds) := by
  have enot : (pNot numeric_separator).parse true [';'] = some ([';'], []) := by decide
  match ds, h with
  | [], _ => decide
  | [d], h =>
    have hd := h d (by simp)
    have eA := paired_alt_fail_single hd
    have eB := unpaired_alt_run_single hd
    show numeric_parameter_pair_list.parse true (d ++ [';']) = _
    rw [parse_true_skip _ _ rfl rfl, dropWs_digits hd]
    simp only [numeric_parameter_pair_list, pSeq, pOr, parse_false, eA, eB, enot,
      npplToks]
    simp
  | d1 :: d2 :: rs, h =>
    have h1 := h d1 (by simp)
    have h2 := h d2 (by simp)
    have hrs : ∀ d ∈ rs, isDigits d := fun d hd => h d (by simp [hd])
    have hin : renderParams (d1 :: d2 :: rs) ++ [';'] =
        d1 ++ (',' :: (d2 ++ (renderTail rs ++ [';']))) := by
      rw [renderParams_eq_renderTail, renderTail_cons, renderParams_eq_renderTail]
      simp [List.append_assoc]
    rw [hin]
    have eA := paired_alt_run h1 h2 hrs
    rw [parse_true_skip _ _ rfl rfl, dropWs_digits h1]
    simp only [numeric_parameter_pair_list, pSeq, pOr, parse_false, eA, enot,
      npplToks]
    simp

theorem isPrefixOf_self_append : ∀ (l t : List Char), l.isPrefixOf (l ++ t) = true := by
  intro l t
  induction l with
  | nil => simp [List.isPrefixOf]
  | cons c l ih => simp [List.isPrefixOf, ih]

theorem pLit_run (v : String) (t : List Char)
    (h : dropWs (v.data ++ t) = v.data ++ t) :
    (pLit v).parse true (v.data ++ t) = some (t, [Tok.s v]) := by
  rw [parse_true_skip _ _ rfl rfl, h]
  simp only [pLit, isPrefixOf_self_append, if_true]
  have hl : v.length = v.data.length := rfl
  rw [hl, List.drop_left]

theorem mn_pen_up_eq : mn_pen_up = pOr (pLit "pu") (pLit "PU") := by
  show mnemonic "PU" = _
  unfold mnemonic
  rw [show strLower "PU" = "pu" from by decide, show strUpper "PU" = "PU" from by decide]

theorem mn_pen_down_eq : mn_pen_down = pOr (pLit "pd") (pLit "PD") := by
  show mnemonic "PD" = _
  unfold mnemonic
  rw [show strLower "PD" = "pd" from by decide, show strUpper "PD" = "PD" from by decide]

theorem pOr_impl (p q : PEl) (s : List Char) :
    (pOr p q).impl s =
      match p.parse true s with
      | some r => some r
      | none => q.parse true s := rfl

theorem pOr_parse_eq_impl (p q : PEl) (b : Bool) (s : List Char) :
    (pOr p q).parse b s = (pOr p q).impl s := by
  simp [PEl.parse, pOr]

theorem pLit_fail_of_head (v : String) (c : Char) (t : List Char)
    (hws : isDefaultWhite c = false) (hpre : v.data.isPrefixOf (c :: t) = false) :
    (pLit v).parse true (c :: t) = none := by
  rw [parse_true_skip _ _ rfl rfl, dropWs_cons_of_not_white hws]
  simp only [pLit, hpre, Bool.false_eq_true, if_false]

theorem cmd_pen_up_run (ds : List (List Char)) (h : ∀ d ∈ ds, isDigits d) :
    cmd_pen_up.parse true ('P' :: ('U' :: (renderParams ds ++ [';']))) =
      some ([], Tok.s "PU" :: (npplToks ds ++ [Tok.s ";"])) := by
  have f1 : (pLit "pu").parse true ('P' :: ('U' :: (renderParams ds ++ [';']))) = none :=
    pLit_fail_of_head _ _ _ (by decide) (by simp [List.isPrefixOf, show ('p' == 'P') = false from by decide])
  have f2 : (pLit "PU").parse true ('P' :: ('U' :: (renderParams ds ++ [';']))) =
      some (renderParams ds ++ [';'], [Tok.s "PU"]) := by
    have := pLit_run "PU" (renderParams ds ++ [';'])
      (dropWs_cons_of_not_white (by decide))
    simpa using this
  have e_mn : mn_pen_up.parse false ('P' :: ('U' :: (renderParams ds ++ [';']))) =
      some (renderParams ds ++ [';'], [Tok.s "PU"]) := by
    rw [parse_false, mn_pen_up_eq, pOr_impl, f1, f2]
  rw [parse_false] at e_mn
  have e_nppl := nppl_run ds h
  have e_ct : (pOpt command_terminator).parse true [';'] = some ([], [Tok.s ";"]) := by
    decide
  rw [parse_true_skip _ _ rfl rfl, dropWs_cons_of_not_white (by decide)]
  simp only [cmd_pen_up, pSeq, parse_false, e_mn, e_nppl, e_ct]
  simp

theorem cmd_pen_up_fail_pd (X : List Char) :
    cmd_pen_up.parse true ('P' :: ('D' :: X)) = none := by
  have f1 : (pLit "pu").parse true ('P' :: ('D' :: X)) = none :=
    pLit_fail_of_head _ _ _ (by decide)
      (by simp [List.isPrefixOf, show ('p' == 'P') = false from by decide])
  have f2 : (pLit "PU").parse true ('P' :: ('D' :: X)) = none :=
    pLit_fail_of_head _ _ _ (by decide)
      (by simp [List.isPrefixOf, show ('U' == 'D') = false from by decide])
  have e_mn : mn_pen_up.parse false ('P' :: ('D' :: X)) = none := by
    rw [parse_false, mn_pen_up_eq, pOr_impl, f1, f2]
  rw [parse_false] at e_mn
  rw [parse_true_skip _ _ rfl rfl, dropWs_cons_of_not_white (by decide)]
  simp only [cmd_pen_up, pSeq, parse_false, e_mn]

theorem cmd_pen_down_run (ds : List (List Char)) (h : ∀ d ∈ ds, isDigits d) :
    cmd_pen_down.parse true ('P' :: ('D' :: (renderParams ds ++ [';']))) =
      some ([], Tok.s "PD" :: (npplToks ds ++ [Tok.s ";"])) := by
  have f1 : (pLit "pd").parse true ('P' :: ('D' :: (renderParams ds ++ [';']))) = none :=
    pLit_fail_of_head _ _ _ (by decide)
      (by simp [List.isPrefixOf, show ('p' == 'P') = false from by decide])
  have f2 : (pLit "PD").parse true ('P' :: ('D' :: (renderParams ds ++ [';']))) =
      some (renderParams ds ++ [';'], [Tok.s "PD"]) := by
    have := pLit_run "PD" (renderParams ds ++ [';'])
      (dropWs_cons_of_not_white (by decide))
    simpa using this
  have e_mn : mn_pen_down.parse false ('P' :: ('D' :: (renderParams ds ++ [';']))) =
      some (renderParams ds ++ [';'], [Tok.s "PD"]) := by
    rw [parse_false, mn_pen_down_eq, pOr_impl, f1, f2]
  rw [parse_false] at e_mn
  have e_nppl := nppl_run ds h
  have e_ct : (pOpt command_terminator).parse true [';'] = some ([], [Tok.s ";"]) := by
    decide
  rw [parse_true_skip _ _ rfl rfl, dropWs_cons_of_not_white (by decide)]
  simp only [cmd_pen_down, pSeq, parse_false, e_mn, e_nppl, e_ct]
  simp

theorem command_impl_of_pu {lt : String} {s : List Char} {r}
    (h : cmd_pen_up.parse true s = some r) : (command lt).impl s = some r := by
  simp only [command, pOr_parse_eq_impl, pOr_impl, h]

theorem command_impl_of_pd {lt : String} {s : List Char} {r}
    (hfail : cmd_pen_up.parse true s = none)
    (h : cmd_pen_down.parse true s = some r) : (command lt).impl s = some r := by
  simp only [command, pOr_parse_eq_impl, pOr_impl, hfail, h]

theorem command_skipWs (lt : String) : (command lt).skipWs = false := rfl

theorem scanFirst_run {lt : String} {s s2 : List Char} {toks : List Tok} (fuel : Nat)
    (h : (command lt).impl s = some (s2, toks)) (hlen : s2.length < s.length) :
    scanFirst (command lt) (fuel + 1) 0 s = some (toks, 0, s.length - s2.length) := by
  simp only [scanFirst, command_skipWs, Bool.false_eq_true, if_false, Nat.sub_self,
    Nat.add_zero, Nat.zero_add, h]
  rw [if_pos (by omega)]

theorem np_parse_isSome_digits {d : List Char} (hd : isDigits d) :
    (numeric_parameter.parse true (String.mk d).data).isSome = true := by
  have h1 : (String.mk d).data = d ++ [] := by simp
  rw [h1, numeric_parameter_parse_run true hd numBoundary_nil]
  rfl

theorem np_parse_comma_isSome :
    (numeric_parameter.parse true [',']).isSome = false := by decide

theorem pyInt_digits {d : List Char} (hd : isDigits d) :
    pyInt (String.mk d) = some (Int.ofNat (digitsToNat d)) := by
  have h1 : (String.mk d).data = d := rfl
  simp [pyInt, h1, List.isEmpty_eq_false.mpr hd.1, hd.2]

theorem intParams_evenStrs (rs : List (List Char)) (h : ∀ d ∈ rs, isDigits d) :
    intParams (evenStrs rs) = some (evenVals rs) := by
  match rs, h with
  | [], _ => rfl
  | [d], _ => rfl
  | d1 :: d2 :: rs2, h =>
    have h1 := h d1 (by simp)
    have h2 := h d2 (by simp)
    have ih := intParams_evenStrs rs2 (fun d hd => h d (by simp [hd]))
    simp [evenStrs, evenVals, intParams, np_parse_comma_isSome,
      np_parse_isSome_digits h1, np_parse_isSome_digits h2,
      pyInt_digits h1, pyInt_digits h2, ih]
termination_by rs.length

theorem pairUp_evenVals (rs : List (List Char)) :
    pairUp (evenVals rs) = some (claimPairs rs) := by
  match rs with
  | [] => rfl
  | [d] => rfl
  | d1 :: d2 :: rs2 =>
    have ih := pairUp_evenVals rs2
    simp [evenVals, pairUp, claimPairs, ih]
termination_by rs.length

theorem foldl_lastGroupStep_all_s (l : List Tok) (acc : List String)
    (h : ∀ t ∈ l, ∃ v, t = Tok.s v) : l.foldl lastGroupStep acc = acc := by
  induction l generalizing acc with
  | nil => rfl
  | cons t l ih =>
    obtain ⟨v, rfl⟩ := h t (by simp)
    simp only [List.foldl_cons, lastGroupStep]
    exact ih acc (fun u hu => h u (by simp [hu]))

theorem oddToks_all_s (rs : List (List Char)) :
    ∀ t ∈ oddToks rs, ∃ v, t = Tok.s v := by
  match rs with
  | [] => simp [oddToks]
  | [d] => simp [oddToks]
  | d1 :: d2 :: rs2 => exact oddToks_all_s rs2
termination_by rs.length

theorem extract_all_s (toks : List Tok) (h : ∀ t ∈ toks, ∃ v, t = Tok.s v) :
    extract_param_pairs toks = some [] := by
  simp [extract_param_pairs, lastGroup, foldl_lastGroupStep_all_s toks [] h,
    intParams, pairUp]

theorem extract_canonical (mn : String) (ds : List (List Char))
    (h : ∀ d ∈ ds, isDigits d) :
    extract_param_pairs (Tok.s mn :: (npplToks ds ++ [Tok.s ";"])) =
      some (claimPairs ds) := by
  match ds, h with
  | [], _ =>
    have := extract_all_s (Tok.s mn :: (npplToks [] ++ [Tok.s ";"])) (by simp [npplToks])
    simpa [claimPairs] using this
  | [d], _ =>
    have := extract_all_s (Tok.s mn :: (npplToks [d] ++ [Tok.s ";"]))
      (by
        intro t ht
        simp [npplToks] at ht
        rcases ht with rfl | rfl | rfl
        · exact ⟨mn, rfl⟩
        · exact ⟨String.mk d, rfl⟩
        · exact ⟨";", rfl⟩)
    simpa [claimPairs] using this
  | d1 :: d2 :: rs, h =>
    have h1 := h d1 (by simp)
    have h2 := h d2 (by simp)
    have hrs : ∀ d ∈ rs, isDigits d := fun d hd => h d (by simp [hd])
    have hg : lastGroup (Tok.s mn :: (npplToks (d1 :: d2 :: rs) ++ [Tok.s ";"])) =
        groupStrs d1 d2 rs := by
      simp only [npplToks, lastGroup, List.foldl_cons, List.cons_append,
        lastGroupStep]
      exact foldl_lastGroupStep_all_s _ _
        (by
          intro t ht
          simp at ht
          rcases ht with ht | rfl
          · exact oddToks_all_s rs t ht
          · exact ⟨";", rfl⟩)
    have hip : intParams (groupStrs d1 d2 rs) =
        some (Int.ofNat (digitsToNat d1) :: Int.ofNat (digitsToNat d2) :: evenVals rs) := by
      simp [groupStrs, intParams, np_parse_comma_isSome,
        np_parse_isSome_digits h1, np_parse_isSome_digits h2,
        pyInt_digits h1, pyInt_digits h2, intParams_evenStrs rs hrs]
    have hpu : pairUp
        (Int.ofNat (digitsToNat d1) :: Int.ofNat (digitsToNat d2) :: evenVals rs) =
        some (claimPairs (d1 :: d2 :: rs)) := by
      simp [pairUp, pairUp_evenVals rs, claimPairs]
    simp [extract_param_pairs, hg, hip]
    simpa using hpu

/-! ## Document-level identities for canonical command texts -/
theorem dropWhile_of_head_false {p : Char → Bool} (l : List Char)
    (h : ∀ c, l.head? = some c → p c = false) : l.dropWhile p = l := by
  cases l with
  | nil => rfl
  | cons c t => simp [List.dropWhile_cons, h c rfl]

theorem pyStrip_eq_self {s : List Char}
    (h1 : ∀ c, s.head? = some c → isPyStripWhite c = false)
    (h2 : ∀ c, s.getLast? = some c → isPyStripWhite c = false) :
    pyStrip s = s := by
  unfold pyStrip
  rw [dropWhile_of_head_false s h1]
  rw [dropWhile_of_head_false s.reverse
    (fun c hc => h2 c (by rwa [List.head?_reverse] at hc))]
  exact List.reverse_reverse s

theorem pyExpandTabs_no_tab : ∀ (s : List Char) (col : Nat),
    (∀ c ∈ s, c ≠ '\t') → pyExpandTabs s col = s := by
  intro s
  induction s with
  | nil => intro col _; rfl
  | cons c t ih =>
    intro col h
    have hc : c ≠ '\t' := h c (by simp)
    have ht : ∀ x ∈ t, x ≠ '\t' := fun x hx => h x (by simp [hx])
    simp only [pyExpandTabs, if_neg hc]
    split
    · rw [ih 0 ht]
    · rw [ih ((col + 1) % 8) ht]

theorem renderParams_chars (ds : List (List Char)) (h : ∀ d ∈ ds, isDigits d) :
    ∀ c ∈ renderParams ds, c.isDigit = true ∨ c = ',' := by
  match ds, h with
  | [], _ => simp [renderParams]
  | [d], h =>
    intro c hc
    have hd := h d (by simp)
    have h2 := hd.2
    rw [List.all_eq_true] at h2
    simp only [renderParams] at hc
    exact Or.inl (h2 c hc)
  | d1 :: d2 :: rs, h =>
    intro c hc
    have hd := h d1 (by simp)
    have h2 := hd.2
    rw [List.all_eq_true] at h2
    have ih := renderParams_chars (d2 :: rs) (fun d hd2 => h d (by simp at hd2 ⊢; tauto))
    simp only [renderParams, List.mem_append, List.mem_cons] at hc
    rcases hc with hc | hc | hc
    · exact Or.inl (h2 c hc)
    · exact Or.inr hc
    · exact ih c hc
termination_by ds.length

set_option maxHeartbeats 2000000 in
theorem parseLoop_single (doc : List Char) (lt0 : String) (toks : List Tok)
    (pairs : List (Int × Int))
    (hcmd : (command lt0).impl doc = some ([], toks))
    (hlen : 0 < doc.length)
    (hnotab : ∀ c ∈ doc, c ≠ '\t')
    (hpu : isPenUpOrDown (toks.getD 0 (Tok.s "")) = true)
    (hex : extract_param_pairs toks = some pairs)
    (hlast : semicolonInLast toks = true) :
    parseLoop doc (doc.length + 1) 0 lt0 none =
      ([((toks.getD 0 (Tok.s "")).str, pairs)], none) := by
  have hscan : scanFirst (command lt0) (doc.length + 1 + 1) 0 doc =
      some (toks, 0, doc.length - ([] : List Char).length) :=
    scanFirst_run (doc.length + 1) hcmd (by simpa using hlen)
  simp only [List.length_nil, Nat.sub_zero] at hscan
  have hdone : ∀ lt2, parseLoop doc doc.length (0 + doc.length) lt2 (some toks) =
      ([], none) := by
    intro lt2
    obtain ⟨m, hm⟩ : ∃ m, doc.length = m + 1 := ⟨doc.length - 1, by omega⟩
    rw [hm]
    simp only [parseLoop]
    rw [if_neg (by omega)]
    simp [hlast]
  simp only [parseLoop]
  rw [if_pos hlen]
  rw [List.drop_zero, pyExpandTabs_no_tab doc 0 hnotab]
  rw [show doc.length + 2 = doc.length + 1 + 1 from rfl, hscan]
  have hemit : emittedEvent toks =
      some (some ((toks.getD 0 (Tok.s "")).str, pairs)) := by
    unfold emittedEvent
    rw [hpu]
    simp [hex]
  simp only [ne_eq, not_true_eq_false, if_neg, hemit]
  rw [hdone (updateLabelTerminator lt0 toks)]
  simp

theorem claimPairs_length (ds : List (List Char)) :
    (claimPairs ds).length = ds.length / 2 := by
  match ds with
  | [] => simp [claimPairs]
  | [d] => simp [claimPairs]
  | d1 :: d2 :: rs =>
    have ih := claimPairs_length rs
    simp only [claimPairs, List.length_cons, ih]
    omega
termination_by ds.length

theorem penCmdText_data (mn : String) (ds : List (List Char)) :
    (penCmdText mn ds).data = mn.data ++ (renderParams ds ++ [';']) := by
  simp [penCmdText]

theorem doc_no_tab (pre : List Char) (ds : List (List Char))
    (hpre : ∀ c ∈ pre, c ≠ '\t') (h : ∀ d ∈ ds, isDigits d) :
    ∀ c ∈ pre ++ (renderParams ds ++ [';']), c ≠ '\t' := by
  intro c hc
  simp only [List.mem_append, List.mem_singleton] at hc
  rcases hc with hc | hc | hc
  · exact hpre c hc
  · rcases renderParams_chars ds h c hc with hd | hd
    · exact ne_of_isDigit hd (by decide)
    · rw [hd]; decide
  · rw [hc]; decide

theorem pyStrip_penCmd (pre : List Char) (ds : List (List Char)) (c0 : Char)
    (hpre : ∃ t, pre = c0 :: t) (hc0 : isPyStripWhite c0 = false) :
    pyStrip (pre ++ (renderParams ds ++ [';'])) = pre ++ (renderParams ds ++ [';']) := by
  obtain ⟨t, rfl⟩ := hpre
  apply pyStrip_eq_self
  · intro c hc
    simp at hc
    subst hc
    exact hc0
  · intro c hc
    rw [show (c0 :: t) ++ (renderParams ds ++ [';']) =
      ((c0 :: t) ++ renderParams ds) ++ [';'] by simp [List.append_assoc]] at hc
    rw [List.getLast?_concat] at hc
    rw [show c = ';' by simpa using hc.symm]
    decide

theorem semicolonInLast_canonical (mn : String) (ds : List (List Char)) :
    semicolonInLast (Tok.s mn :: (npplToks ds ++ [Tok.s ";"])) = true := by
  unfold semicolonInLast
  rw [show Tok.s mn :: (npplToks ds ++ [Tok.s ";"]) =
    (Tok.s mn :: npplToks ds) ++ [Tok.s ";"] by simp]
  rw [List.getLast?_concat]
  decide

/-- Canonical Pen-Up / Pen-Down documents produce exactly one event with the
pairing predicted by the specification. -/
theorem parse_hp_gl_canonical (isUp : Bool) (ds : List (List Char))
    (h : ∀ d ∈ ds, isDigits d) :
    parse_hp_gl (penCmdText (cond isUp "PU" "PD") ds) =
      ([(cond isUp "PU" "PD", claimPairs ds)], none) := by
  cases isUp with
  | true =>
    show parse_hp_gl (penCmdText "PU" ds) = ([("PU", claimPairs ds)], none)
    unfold parse_hp_gl
    rw [penCmdText_data]
    rw [pyStrip_penCmd "PU".data ds 'P' ⟨['U'], rfl⟩ (by decide)]
    have hcmd : (command (String.mk [Char.ofNat 3])).impl
        ("PU".data ++ (renderParams ds ++ [';'])) =
        some ([], Tok.s "PU" :: (npplToks ds ++ [Tok.s ";"])) := by
      apply command_impl_of_pu
      exact cmd_pen_up_run ds h
    have := parseLoop_single ("PU".data ++ (renderParams ds ++ [';']))
      (String.mk [Char.ofNat 3]) (Tok.s "PU" :: (npplToks ds ++ [Tok.s ";"]))
      (claimPairs ds) hcmd (by simp) (doc_no_tab "PU".data ds (by decide) h)
      (by simp only [List.getD_cons_zero]; decide)
      (extract_canonical "PU" ds h) (semicolonInLast_canonical "PU" ds)
    simpa [Tok.str, List.getD_cons_zero] using this
  | false =>
    show parse_hp_gl (penCmdText "PD" ds) = ([("PD", claimPairs ds)], none)
    unfold parse_hp_gl
    rw [penCmdText_data]
    rw [pyStrip_penCmd "PD".data ds 'P' ⟨['D'], rfl⟩ (by decide)]
    have hcmd : (command (String.mk [Char.ofNat 3])).impl
        ("PD".data ++ (renderParams ds ++ [';'])) =
        some ([], Tok.s "PD" :: (npplToks ds ++ [Tok.s ";"])) := by
      apply command_impl_of_pd
      · exact cmd_pen_up_fail_pd (renderParams ds ++ [';'])
      · exact cmd_pen_down_run ds h
    have := parseLoop_single ("PD".data ++ (renderParams ds ++ [';']))
      (String.mk [Char.ofNat 3]) (Tok.s "PD" :: (npplToks ds ++ [Tok.s ";"]))
      (claimPairs ds) hcmd (by simp) (doc_no_tab "PD".data ds (by decide) h)
      (by simp only [List.getD_cons_zero]; decide)
      (extract_canonical "PD" ds h) (semicolonInLast_canonical "PD" ds)
    simpa [Tok.str, List.getD_cons_zero] using this

/-! ## Nonnegativity of all extracted coordinates -/
theorem pyInt_nonneg {v : String} {x : Int} (h : pyInt v = some x) : 0 ≤ x := by
  unfold pyInt at h
  split at h
  · simp at h
    rw [← h]
    exact Int.ofNat_nonneg _
  · simp at h

theorem intParams_nonneg : ∀ (l : List String) (vs : List Int),
    intParams l = some vs → ∀ x ∈ vs, 0 ≤ x := by
  intro l
  induction l with
  | nil =>
    intro vs h x hx
    simp [intParams] at h
    subst h
    simp at hx
  | cons p rest ih =>
    intro vs h x hx
    simp only [intParams] at h
    split at h
    · cases hpi : pyInt p with
      | none => rw [hpi] at h; simp at h
      | some v =>
        rw [hpi] at h
        rcases Option.map_eq_some'.mp h with ⟨vs2, hvs2, rfl⟩
        simp at hx
        rcases hx with rfl | hx
        · exact pyInt_nonneg hpi
        · exact ih vs2 hvs2 x hx
    · exact ih vs h x hx

theorem pairUp_nonneg : ∀ (vs : List Int) (ps : List (Int × Int)),
    (∀ x ∈ vs, 0 ≤ x) → pairUp vs = some ps →
    ∀ p ∈ ps, 0 ≤ p.1 ∧ 0 ≤ p.2 := by
  intro vs
  match vs with
  | [] =>
    intro ps _ hp p hmem
    simp [pairUp] at hp
    subst hp
    simp at hmem
  | [x] =>
    intro ps _ hp
    simp [pairUp] at hp
  | x :: y :: rest =>
    intro ps hnn hp p hmem
    simp only [pairUp] at hp
    cases hre : pairUp rest with
    | none => rw [hre] at hp; simp at hp
    | some ps2 =>
      rw [hre] at hp
      simp at hp
      subst hp
      simp at hmem
      rcases hmem with rfl | hmem
      · exact ⟨hnn x (by simp), hnn y (by simp)⟩
      · exact pairUp_nonneg rest ps2 (fun z hz => hnn z (by simp [hz])) hre p hmem
termination_by vs => vs.length

theorem extract_nonneg {toks : List Tok} {ps : List (Int × Int)}
    (h : extract_param_pairs toks = some ps) :
    ∀ p ∈ ps, 0 ≤ p.1 ∧ 0 ≤ p.2 := by
  unfold extract_param_pairs at h
  cases hip : intParams (lastGroup toks) with
  | none => rw [hip] at h; simp at h
  | some vs =>
    rw [hip] at h
    exact pairUp_nonneg vs ps (intParams_nonneg _ vs hip) h

theorem emittedEvent_nonneg {toks : List Tok} {evOpt : Option Event}
    (h : emittedEvent toks = some evOpt) :
    ∀ ev ∈ evOpt.toList, ∀ p ∈ ev.2, 0 ≤ p.1 ∧ 0 ≤ p.2 := by
  unfold emittedEvent at h
  split at h
  · cases hex : extract_param_pairs toks with
    | none => rw [hex] at h; simp at h
    | some pairs =>
      rw [hex] at h
      simp at h
      subst h
      intro ev hev
      simp at hev
      subst hev
      exact extract_nonneg hex
  · simp at h
    subst h
    intro ev hev
    simp at hev

theorem parseLoop_nonneg (doc : List Char) : ∀ (fuel ptr : Nat) (lt : String)
    (lastCmd : Option (List Tok)) (ev : Event),
    ev ∈ (parseLoop doc fuel ptr lt lastCmd).1 →
    ∀ p ∈ ev.2, 0 ≤ p.1 ∧ 0 ≤ p.2 := by
  intro fuel
  induction fuel with
  | zero =>
    intro ptr lt lastCmd ev hev
    simp [parseLoop] at hev
  | succ f ih =>
    intro ptr lt lastCmd ev hev
    simp only [parseLoop] at hev
    split at hev
    · split at hev
      · simp at hev
      · split at hev
        · simp at hev
        · split at hev
          · simp at hev
          · rename_i evOpt hemit
            simp only [List.mem_append] at hev
            rcases hev with hev | hev
            · exact emittedEvent_nonneg hemit ev hev
            · exact ih _ _ _ ev hev
    · split at hev
      · simp at hev
      · split at hev <;> simp at hev

/-- Every coordinate the scan ever emits is nonnegative. -/
theorem parse_hp_gl_nonneg (document : String) (ev : Event)
    (hev : ev ∈ (parse_hp_gl document).1) :
    ∀ p ∈ ev.2, 0 ≤ p.1 ∧ 0 ≤ p.2 := by
  unfold parse_hp_gl at hev
  exact parseLoop_nonneg _ _ _ _ _ ev hev

/-! ## The claims -/
set_option maxHeartbeats 4000000 in
/-- Claim C1: scanning the end-to-end scenario document yields exactly the
event sequence `[(PU, []), (PD, [(12,13)]), (PD, []), (PU, [(15,16),(17,18)])]`
in that order and raises no error. -/
theorem claim_C1_end_to_end :
    parse_hp_gl "DT&\nPU12\nPD12,13\nLBa-label&\nDT_\nXY12,13,432,2 234\nLBa-label_\nPE a b # c;\nSM c\nPD14\nPU15,16 17 18;\n" =
      ([("PU", []), ("PD", [(12, 13)]), ("PD", []), ("PU", [(15, 16), (17, 18)])],
        none) := by
  decide

set_option maxHeartbeats 2000000 in
/-- Claim C2: for every valid Pen-Up/Pen-Down command text carrying N integer
numeric parameters (canonical comma-separated form, any values and arity,
either mnemonic), the emitted event carries exactly `⌊N/2⌋` coordinate pairs,
values in encounter order, only the final dangling parameter dropped; in
particular `"PU12,13"` yields `[(12,13)]`, `"PU12"` yields `[]`,
`"PD12,13,14"` yields `[(12,13)]`, and `"PU12,13,14,15,16"` yields
`[(12,13),(14,15)]` with 16 dropped. -/
theorem claim_C2_pair_extraction :
    (∀ (isUp : Bool) (ds : List (List Char)), (∀ d ∈ ds, isDigits d) →
      parse_hp_gl (penCmdText (cond isUp "PU" "PD") ds) =
        ([(cond isUp "PU" "PD", claimPairs ds)], none) ∧
      (claimPairs ds).length = ds.length / 2) ∧
    (parse_hp_gl "PU12,13").1 = [("PU", [(12, 13)])] ∧
    (parse_hp_gl "PU12").1 = [("PU", [])] ∧
    (parse_hp_gl "PD12,13,14").1 = [("PD", [(12, 13)])] ∧
    (parse_hp_gl "PU12,13,14,15,16").1 = [("PU", [(12, 13), (14, 15)])] := by
  refine ⟨fun isUp ds h => ⟨parse_hp_gl_canonical isUp ds h, claimPairs_length ds⟩,
    by decide, by decide, by decide, by decide⟩

/-- Witness for claim C2: the universal statement applied to the five-value
parameter list 12,13,14,15,16 of the claim's last example. -/
theorem claim_C2_pair_extraction_witness :
    parse_hp_gl (penCmdText "PU" [['1', '2'], ['1', '3'], ['1', '4'], ['1', '5'], ['1', '6']]) =
      ([("PU", [(12, 13), (14, 15)])], none) := by
  have h := (claim_C2_pair_extraction.1 true
    [['1', '2'], ['1', '3'], ['1', '4'], ['1', '5'], ['1', '6']] (by decide)).1
  exact h.trans (by decide)

set_option maxHeartbeats 2000000 in
/-- Claim C3 (code bug evidence): a `"DT&;"` command is matched with tokens
`["DT","&",";"]`, yet the driver's update conditionals leave the
label-terminator state unchanged (still ETX), so a following `"LBtext&"` is
not recognized as a label and the scan of `"DT&;LBtext&PU1,2;"` fails with a
misaligned match instead of parsing the label and emitting `(PU, [(1,2)])`. -/
theorem claim_C3_dt_semicolon_no_update :
    cmd_define_label_terminator.parse true "DT&;".data =
      some ([], [Tok.s "DT", Tok.s "&", Tok.s ";"]) ∧
    updateLabelTerminator (String.mk [Char.ofNat 3])
      [Tok.s "DT", Tok.s "&", Tok.s ";"] = String.mk [Char.ofNat 3] ∧
    parse_hp_gl "DT&;LBtext&PU1,2;" =
      ([], some (PyFailure.misaligned "&PU1,2;" 1)) := by
  exact ⟨by decide, by decide, by decide⟩

/-- Counterexample to claim C4 as stated: `"PU12.5,13;"` does not produce the
truncated pairs `[(12,13)]`. -/
theorem claim_C4_counterexample :
    parse_hp_gl "PU12.5,13;" ≠ ([("PU", [(12, 13)])], none) := by decide

/-- Claim C4 as amended: a Pen-Up/Pen-Down command whose matched pair group
contains a fractional literal makes the scan fail with Python's unclassified
`ValueError` (from `int("12.5")`), emitting no pairs, instead of truncating. -/
theorem claim_C4_fractional_value_error :
    parse_hp_gl "PU12.5,13;" = ([], some PyFailure.valueError) := by decide

set_option maxHeartbeats 2000000 in
/-- Claim C5: the four malformed documents fail with exactly the four
classified errors: no-match-anywhere at position 0, match-not-at-cursor,
empty document, and missing final terminator. -/
theorem claim_C5_error_classification :
    parse_hp_gl "..." = ([], some (PyFailure.failedToParse "...")) ∧
    parse_hp_gl "...PD0,0,10,10;" =
      ([], some (PyFailure.misaligned "...PD0,0,10,10;" 3)) ∧
    parse_hp_gl "  \n\t" = ([], some PyFailure.emptyFile) ∧
    parse_hp_gl "PU15,16 17 18" =
      ([("PU", [(15, 16), (17, 18)])], some PyFailure.missingSemicolon) := by
  exact ⟨by decide, by decide, by decide, by decide⟩

/-- Counterexample to claim C6 as stated: on `"PU12,13,;"` the driver reports
no parse failure at all. -/
theorem claim_C6_counterexample :
    (parse_hp_gl "PU12,13,;").2 = none := by decide

/-- Claim C6 as amended: the Pen-Up command grammar itself does reject a
trailing bare separator, but the driver then silently consumes the text with
the catch-all two-letter grammar and, because the first token is `"PU"`, even
emits a bogus `(PU, [])` event with all parameters dropped. -/
theorem claim_C6_trailing_separator_swallowed :
    cmd_pen_up.parse true "PU12,13,;".data = none ∧
    parse_hp_gl "PU12,13,;" = ([("PU", [])], none) := by
  exact ⟨by decide, by decide⟩

set_option maxHeartbeats 2000000 in
/-- Claim C7 (code bug evidence): the abort form `"DT;"` matches with tokens
`["DT",";"]`, and the driver's length-2 update conditional then sets the
label terminator to `";"` rather than leaving it at ETX; consequently in
`"DT;LBx\x03PU1,2;"` the label runs to the `;`, swallowing the Pen-Up
command, and the scan succeeds with no events instead of emitting
`(PU, [(1,2)])`. -/
theorem claim_C7_abort_updates_state :
    cmd_define_label_terminator.parse true "DT;".data =
      some ([], [Tok.s "DT", Tok.s ";"]) ∧
    updateLabelTerminator (String.mk [Char.ofNat 3]) [Tok.s "DT", Tok.s ";"] = ";" ∧
    parse_hp_gl (String.mk ("DT;LBx".data ++ [Char.ofNat 3] ++ "PU1,2;".data)) =
      ([], none) := by
  exact ⟨by decide, by decide, by decide⟩

set_option maxHeartbeats 2000000 in
/-- Claim C8: `"PE 123 #AB"` (no trailing semicolon) makes the scan fail,
while `"PE 123 #AB;"` is parsed successfully and produces no output event. -/
theorem claim_C8_polyline_terminator :
    parse_hp_gl "PE 123 #AB" = ([], some (PyFailure.misaligned "#AB" 1)) ∧
    parse_hp_gl "PE 123 #AB;" = ([], none) := by
  exact ⟨by decide, by decide⟩

/-- Claim C9: the numeric-parameter literal is matched greedily without
backtracking: on `"12.5.7"` it matches exactly `"12.5"` leaving `".7"`, and
on `".1"` it fails outright. -/
theorem claim_C9_numeric_literal :
    numeric_parameter.parse true "12.5.7".data = some (".7".data, [Tok.s "12.5"]) ∧
    numeric_parameter.parse true ".1".data = none := by
  exact ⟨by decide, by decide⟩

/-- Claim C10: every coordinate in every emitted pair of any document is
nonnegative, and a `-` between two numbers acts as a separator, never a sign:
`"PU10-20;"` emits exactly `[(10, 20)]`. -/
theorem claim_C10_nonnegative_coordinates :
    (∀ (document : String) (ev : Event), ev ∈ (parse_hp_gl document).1 →
      ∀ p ∈ ev.2, 0 ≤ p.1 ∧ 0 ≤ p.2) ∧
    parse_hp_gl "PU10-20;" = ([("PU", [(10, 20)])], none) := by
  exact ⟨parse_hp_gl_nonneg, by decide⟩

/-- Witness for claim C10: the universal statement applied to the document
`"PU10-20;"` and its emitted pair `(10, 20)`. -/
theorem claim_C10_nonnegative_coordinates_witness :
    (0 : Int) ≤ 10 ∧ (0 : Int) ≤ 20 := by
  have h := claim_C10_nonnegative_coordinates.1 "PU10-20;" ("PU", [(10, 20)])
    (by decide) (10, 20) (by decide)
  exact h

set_option maxHeartbeats 2000000 in
/-- Validation of the embedding against the expectations of the repository's
own test suite (`tests/test_patterns.py`): token lists, leftovers and
failures match the recorded pyparsing behaviour. -/
theorem python_test_suite_vectors :
    numeric_parameter_pair_list.parse true "12 13 14 15 16".data =
      some ([], [Tok.g ["12", "13", "14", "15"], Tok.s "16"]) ∧
    numeric_parameter_pair_list.parse true "12, 13, 14".data =
      some ([], [Tok.g ["12", ",", "13"], Tok.s ",", Tok.s "14"]) ∧
    numeric_parameter_pair_list.parse true "12, , 13".data = none ∧
    cmd_pen_up.parse true "PU12,13 14XY".data =
      some ("XY".data, [Tok.s "PU", Tok.g ["12", ",", "13"], Tok.s "14"]) ∧
    cmd_other.parse true "XY, ,12 ,,".data =
      some ([], [Tok.s "XY", Tok.s ",", Tok.s ",", Tok.s "12", Tok.s ",", Tok.s ","]) ∧
    cmd_polyline_encoded.parse true "PE 123 #AB".data = none ∧
    cmd_symbol_mode.parse true "SM XY".data = some ("Y".data, [Tok.s "SM", Tok.s "X"]) ∧
    cmd_define_label_terminator.parse true "DT &;".data =
      some ("&;".data, [Tok.s "DT", Tok.s " "]) ∧
    (cmd_label "&").parse true "LB a b c & ; XY".data =
      some (" XY".data, [Tok.s "LB", Tok.s " a b c ", Tok.s "&", Tok.s ";"]) := by
  exact ⟨by decide, by decide, by decide, by decide, by decide, by decide, by decide,
    by decide, by decide⟩

end HPGL
